import Mathlib

/-!
Verification of the benten YAML editing / CWL validation core.

Shallow embedding of:
* `src/benten/editing/lineloader.py` — `LAM` (list-as-map promotion) and
  `reverse_lookup`;
* `src/benten/editing/yamldoc.py` — `YamlDoc.parse_yaml`,
  `YamlDoc.get_raw_text_for_section` and `YamlDoc.edit_from_quick_diff`;
* `src/benten/cwl/enumtype.py` — `CWLEnumType.check` and `CWLEnumType.parse`.

Python machine-level conventions are embedded explicitly: truthiness,
short-circuit `or` returning an operand, `dict` insertion-order semantics
with in-place replacement on key collision, and `list` indexing with
negative-index wrap-around and `IndexError`.
-/

namespace Benten

/-- Scalar Python values appearing as YAML leaf payloads and as the values of
list elements during list-as-map promotion.  `pynone` models Python `None`. -/
inductive PyVal where
  | str (s : String)
  | int (n : Int)
  | bool (b : Bool)
  | pynone
  deriving DecidableEq, Repr

/-- Python truthiness of a `PyVal`: empty string, `0`, `False` and `None`
are falsy, everything else is truthy. -/
def PyVal.pyTruthy : PyVal → Bool
  | .str s => s != ""
  | .int n => n != 0
  | .bool b => b
  | .pynone => false

/-- A YAML mapping element as a Python dict: an insertion-ordered association
list with unique keys (`dict` semantics).  `get` returns the first binding. -/
abbrev Elem := List (String × PyVal)

/-- Python `v.get(key)`: the value bound to `key`, or `None`-as-absence. -/
def pyDictGet (v : Elem) (k : String) : Option PyVal :=
  (v.find? (fun p => p.1 == k)).map Prod.snd

/-- The sentinel from `LAM.__init__` (`lineloader.py:123`): the key used for
elements that lack (or have a falsy) key field, popped again afterwards. -/
def secret_missing_key : String :=
  "there is no CWL field that looks like this, and it can safely be used"

/-- The sentinel as a dict key. -/
def secretKey : PyVal := .str secret_missing_key

/-- `v.get(key_field) or _add_error_line(v)` (`lineloader.py:131`): the key
under which `v` is inserted is its key-field value when that value is truthy;
otherwise the element is an error element.  `some k` means truthy key `k`. -/
def elemKeyVal (kf : String) (v : Elem) : Option PyVal :=
  match pyDictGet v kf with
  | some x => if x.pyTruthy then some x else none
  | none => none

/-- Python `dict` insertion: a colliding key replaces the existing value in
place (original position kept); a fresh key is appended at the end. -/
def dinsert (m : List (PyVal × Elem)) (k : PyVal) (v : Elem) :
    List (PyVal × Elem) :=
  if m.any (fun p => p.1 == k) then
    m.map (fun p => if p.1 == k then (p.1, v) else p)
  else
    m ++ [(k, v)]

/-- One element of the dict comprehension in `LAM.__init__`
(`lineloader.py:130-133`): a truthy key inserts the element under that key;
otherwise `_add_error_line` appends the element to `errors` and the element is
inserted under the sentinel key. -/
def lamStep (kf : String) (st : List (PyVal × Elem) × List Elem) (v : Elem) :
    List (PyVal × Elem) × List Elem :=
  match elemKeyVal kf v with
  | some k => (dinsert st.1 k v, st.2)
  | none => (dinsert st.1 secretKey v, st.2 ++ [v])

/-- The result of list-as-map promotion: the keyed mapping (insertion-ordered
pairs) and the `errors` list. -/
structure LAMResult where
  entries : List (PyVal × Elem)
  errors : List Elem
  deriving DecidableEq, Repr

/-- `LAM.__init__` (`lineloader.py:121-140`): build the dict by the
comprehension `(v.get(key_field) or _add_error_line(v)): v` over the sequence
in order, then pop the sentinel key if present (the final `filter`). -/
def LAM_build (kf : String) (value : List Elem) : LAMResult :=
  let st := value.foldl (lamStep kf) ([], [])
  ⟨st.1.filter (fun p => p.1 != secretKey), st.2⟩

/-- A PyYAML mark: zero-indexed (line, column) source position. -/
structure Mark where
  line : Nat
  column : Nat
  deriving DecidableEq, Repr

/-- A parsed YAML node with position marks, as produced by
`parse_yaml_with_line_info` (`lineloader.py`): `yscalar` covers
`Ystr`/`Yint`/`Ybool`/`YNone` (payload plus scalar style, `""` for plain
style), `ydict` covers `Ydict`/`LAM` (with `flow_style`), `ylist` covers
`Ylist`. -/
inductive YNode where
  | yscalar (v : PyVal) (style : String) (start stop : Mark)
  | ydict (flow_style : Bool) (start stop : Mark) (entries : List (String × YNode))
  | ylist (flow_style : Bool) (start stop : Mark) (elems : List YNode)

/-- The node's `start` mark. -/
def YNode.startM : YNode → Mark
  | .yscalar _ _ s _ => s
  | .ydict _ s _ _ => s
  | .ylist _ s _ _ => s

/-- The node's `end` mark. -/
def YNode.stopM : YNode → Mark
  | .yscalar _ _ _ e => e
  | .ydict _ _ e _ => e
  | .ylist _ _ e _ => e

/-- `isinstance(v, Ydict) or isinstance(v, Ylist)` (`lineloader.py:213`). -/
def YNode.isComposite : YNode → Bool
  | .yscalar _ _ _ _ => false
  | .ydict _ _ _ _ => true
  | .ylist _ _ _ _ => true

/-- A path component: a mapping key or a sequence index. -/
inductive PathKey where
  | str (s : String)
  | idx (n : Nat)
  deriving DecidableEq, Repr

/-- The containment test of `reverse_lookup` (`lineloader.py:211-212`):
`v.start.line <= line <= v.end.line` and, only when the node lies entirely on
one line (`v.start.line == v.end.line`), additionally
`v.start.column <= col <= v.end.column`. -/
def containsPoint (line col : Nat) (v : YNode) : Bool :=
  v.startM.line ≤ line && line ≤ v.stopM.line &&
    (v.startM.line != v.stopM.line ||
      (v.startM.column ≤ col && col ≤ v.stopM.column))

/-- The containment rule as the spec states it: line containment, with the
column bound additionally checked on the node's first and last line.  Written
from the spec's words, for comparison with `containsPoint` (the source's
rule). -/
def specClaimContains (line col : Nat) (v : YNode) : Bool :=
  v.startM.line ≤ line && line ≤ v.stopM.line &&
    (line != v.startM.line || v.startM.column ≤ col) &&
    (line != v.stopM.line || col ≤ v.stopM.column)

/-- The children iterated by `reverse_lookup`: `doc.items()` for a mapping,
`enumerate(doc)` for a sequence (`lineloader.py:209`).  The function is only
ever called on composites, so a scalar has no children. -/
def YNode.childrenKV : YNode → List (PathKey × YNode)
  | .yscalar _ _ _ _ => []
  | .ydict _ _ _ es => es.map (fun kv => (.str kv.1, kv.2))
  | .ylist _ _ _ es => es.enum.map (fun iv => (.idx iv.1, iv.2))

mutual

/-- `reverse_lookup` (`lineloader.py:207-216`): scan children in document
order; on the first child containing the point, return it if it is a scalar,
otherwise return the recursive result on that child (even when that result is
`None`); return `None` when no child contains the point. -/
def reverse_lookup (line col : Nat) (doc : YNode) (path : List PathKey) :
    Option (List PathKey × YNode) :=
  match doc with
  | .yscalar _ _ _ _ => none
  | .ydict _ _ _ es => rlDict line col es path
  | .ylist _ _ _ es => rlList line col es 0 path

/-- The `for k, v in doc.items()` loop of `reverse_lookup`. -/
def rlDict (line col : Nat) (es : List (String × YNode)) (path : List PathKey) :
    Option (List PathKey × YNode) :=
  match es with
  | [] => none
  | (k, v) :: rest =>
    if containsPoint line col v then
      if v.isComposite then reverse_lookup line col v (path ++ [.str k])
      else some (path ++ [.str k], v)
    else rlDict line col rest path

/-- The `for k, v in enumerate(doc)` loop of `reverse_lookup`; `i` is the
running index. -/
def rlList (line col : Nat) (es : List YNode) (i : Nat) (path : List PathKey) :
    Option (List PathKey × YNode) :=
  match es with
  | [] => none
  | v :: rest =>
    if containsPoint line col v then
      if v.isComposite then reverse_lookup line col v (path ++ [.idx i])
      else some (path ++ [.idx i], v)
    else rlList line col rest (i + 1) path

end

/-- Python exceptions that the embedded editing functions can raise.
`nameError s` models a `NameError` on the undefined name `s`. -/
inductive PyExc where
  | keyError
  | typeError
  | indexError
  | nameError (s : String)
  deriving DecidableEq, Repr

/-- Modelled from the spec: `DocumentError` (raised by the parser, imported by
`yamldoc.py` from `lineloader`, whose given excerpt omits its definition)
"carrying a message and best-known position" (spec §4.1, §7). -/
structure DocumentError where
  message : String
  pos : Mark
  deriving DecidableEq, Repr

/-- The `Contents` enum of `yamldoc.py:11-16` (only constructor identity is
used here; the bitwise combination in `set_raw_text_and_reparse` is not
modelled). -/
inductive Contents where
  | Unchanged
  | Changed
  | ParseSkipped
  | ParseSuccess
  | ParseFail
  deriving DecidableEq, Repr

/-- The mutable state of a `YamlDoc` (`yamldoc.py:53-58`). -/
structure YamlDocS where
  raw_text : String
  yaml : Option YNode
  last_good_yaml : Option YNode
  yaml_error : Option DocumentError

/-- Modelled from the spec: `Ydict.empty()` (called in `yamldoc.py:86`; its
definition is part of the repository's `lineloader` but missing from the given
excerpt) — an empty mapping node. -/
def Ydict.empty : YNode := .ydict false ⟨0, 0⟩ ⟨0, 0⟩ []

/-- Python truthiness of a parsed node: empty containers and falsy scalars
are falsy (used by the `or Ydict.empty()` in `parse_yaml`). -/
def YNode.pyTruthy : YNode → Bool
  | .yscalar v _ _ _ => v.pyTruthy
  | .ydict _ _ _ es => !es.isEmpty
  | .ylist _ _ _ es => !es.isEmpty

/-- `YamlDoc.parse_yaml` (`yamldoc.py:81-92`).  The external parser
`parse_yaml_with_line_info` is a parameter `p`; `.ok none` models a `None`
return (empty document).  On a raised `DocumentError` the assignment to
`self.yaml` never happens, `yaml_error` is set and `ParseFail` returned. -/
def parse_yaml (p : String → Except DocumentError (Option YNode))
    (d : YamlDocS) : YamlDocS × Contents :=
  if d.yaml.isSome && d.yaml_error.isNone then
    (d, .ParseSkipped)
  else
    match p d.raw_text with
    | .ok r =>
      let t := match r with
        | some t => if t.pyTruthy then t else Ydict.empty
        | none => Ydict.empty
      ({ d with yaml := some t, yaml_error := none, last_good_yaml := some t },
       .ParseSuccess)
    | .error e => ({ d with yaml_error := some e }, .ParseFail)

/-- `YamlDoc.__getitem__` (`yamldoc.py:106-110`): walk the path through
mappings; a missing key is a `KeyError`, indexing a non-mapping with a string
is a `TypeError`. -/
def ygetPath : YNode → List String → Except PyExc YNode
  | n, [] => .ok n
  | .ydict _ _ _ es, p :: ps =>
    match (es.find? (fun kv => kv.1 == p)).map Prod.snd with
    | some v => ygetPath v ps
    | none => .error .keyError
  | _, _ :: _ => .error .typeError

/-- Python `str.lstrip()`: drop leading whitespace characters. -/
def lstrip (s : String) : String :=
  String.mk (s.toList.dropWhile fun c => c.isWhitespace)

/-- `YamlDoc.get_raw_text_for_section` (`yamldoc.py:122-147`).  The statement
`raise UnableToCreateView(...)` on line 134 refers to a name that is neither
defined in `yamldoc.py` nor imported (`yamldoc.py:1-8`), so executing it
raises `NameError`; it is embedded as `.nameError "UnableToCreateView"`. -/
def get_raw_text_for_section (raw_lines : List String) (root : YNode)
    (path : List String) : Except PyExc String :=
  match ygetPath root path with
  | .error e => .error e
  | .ok value =>
    let start_line := value.startM.line
    let end_line := value.stopM.line
    match raw_lines.get? start_line with
    | none => .error .indexError
    | some l0 =>
      let indent_level := l0.length - (lstrip l0).length
      let lines_we_need := (raw_lines.drop start_line).take (end_line - start_line)
      let lines := lines_we_need.map
        (fun l => if l.length > indent_level then l.drop indent_level else "\n")
      match value with
      | .ydict flow _ _ es =>
        if flow then
          if es.isEmpty then .ok ""
          else .error (.nameError "UnableToCreateView")
        else .ok (String.join lines)
      | .yscalar (.str s) style _ _ =>
        if style = "" then .ok s else .ok (String.join lines)
      | _ => .ok (String.join lines)

/-- Python list indexing `l[i]`: a negative index wraps to `len(l) + i`; an
index out of range after wrapping raises `IndexError` (the error case). -/
def pyIdx (l : List String) (i : Int) : Except Unit String :=
  let j := if i < 0 then (l.length : Int) + i else i
  if 0 ≤ j then
    match l.get? j.toNat with
    | some s => .ok s
    | none => .error ()
  else .error ()

/-- Python slicing `l[a:b]` for integer bounds: negative bounds wrap to
`len(l) + x`, then both bounds are clamped into `[0, len(l)]`. -/
def pySlice (l : List String) (a b : Int) : List String :=
  let norm := fun (x : Int) =>
    if x < 0 then max 0 ((l.length : Int) + x) else min x (l.length : Int)
  (l.drop (norm a).toNat).take ((norm b).toNat - (norm a).toNat)

/-- The first loop of `edit_from_quick_diff` (`yamldoc.py:223-227`):
`for n in range(len(orig_lines)): if orig_lines[n] != new_lines[n]: break`.
`rem` is `orig_lines` from position `n` on, so its head is `orig_lines[n]`;
`new_lines[n]` is Python indexing and can raise `IndexError`.  Returns the
break index, or `none` when the loop runs to completion. -/
def upperLoopGo (rem new : List String) (n : Nat) : Except Unit (Option Nat) :=
  match rem with
  | [] => .ok none
  | o :: rest =>
    match pyIdx new (n : Int) with
    | .error e => .error e
    | .ok s => if o != s then .ok (some n) else upperLoopGo rest new (n + 1)

/-- The first loop of `edit_from_quick_diff`, started at `n = 0`. -/
def upperLoop (orig new : List String) : Except Unit (Option Nat) :=
  upperLoopGo orig new 0

/-- The second loop of `edit_from_quick_diff` (`yamldoc.py:229-233`):
`for n in range(len(orig_lines)): if orig_lines[L0 - n] != new_lines[L1 - n]:
break`.  `remRev` is `orig_lines` reversed from position `n` on, so its head
is `orig_lines[L0 - n]`; `new_lines[L1 - n]` is Python indexing (it can wrap
around through a negative index, or raise `IndexError`). -/
def lowerLoopGo (remRev new : List String) (n : Nat) : Except Unit (Option Nat) :=
  match remRev with
  | [] => .ok none
  | o :: rest =>
    match pyIdx new ((new.length : Int) - 1 - n) with
    | .error e => .error e
    | .ok s => if o != s then .ok (some n) else lowerLoopGo rest new (n + 1)

/-- The second loop of `edit_from_quick_diff`, started at `n = 0`. -/
def lowerLoop (orig new : List String) : Except Unit (Option Nat) :=
  lowerLoopGo orig.reverse new 0

/-- Modelled from the spec: an edit position, "(line, column), zero-indexed"
(`EditMark` is imported by `yamldoc.py` from the repository's `edit` module,
which is not part of the given sources).  `Int` is used because
`edit_from_quick_diff` can produce `len(orig_lines) - 1 = -1` on an empty
buffer. -/
structure EditMark where
  line : Int
  column : Int
  deriving DecidableEq, Repr

/-- Modelled from the spec: an `Edit` record `{start, end, replacement}`
(spec §3); only the raw-string replacement produced by
`edit_from_quick_diff` is modelled (`stop` stands for the source's `end`). -/
structure Edit where
  start : EditMark
  stop : EditMark
  text : String
  deriving DecidableEq, Repr

/-- `YamlDoc.edit_from_quick_diff` (`yamldoc.py:218-238`): run both scan
loops (defaults `upper_n = L0`, `lower_n = 0` when a loop finds no mismatch)
and return `Edit((upper_n, 0), (L0 - lower_n + 1, 0),
"".join(new_lines[upper_n : L1 - lower_n + 1]))`. -/
def edit_from_quick_diff (orig new : List String) : Except Unit Edit :=
  let L0 : Int := (orig.length : Int) - 1
  let L1 : Int := (new.length : Int) - 1
  match upperLoop orig new with
  | .error e => .error e
  | .ok u =>
    match lowerLoop orig new with
    | .error e => .error e
    | .ok l =>
      let upper_n : Int := match u with | some n => (n : Int) | none => L0
      let lower_n : Int := match l with | some n => (n : Int) | none => 0
      .ok ⟨⟨upper_n, 0⟩, ⟨L0 - lower_n + 1, 0⟩,
        String.join (pySlice new upper_n (L1 - lower_n + 1))⟩

/-- Length of the longest common prefix of two line buffers (spec-side
notion used to state what the quick diff trims). -/
def lcpLen : List String → List String → Nat
  | x :: xs, y :: ys => if x = y then lcpLen xs ys + 1 else 0
  | _, _ => 0

/-- Length of the longest common suffix of two line buffers. -/
def lcsLen (xs ys : List String) : Nat :=
  lcpLen xs.reverse ys.reverse

/-- A source range as in `lspobjects.Range` (start/end positions). -/
structure Range where
  start : Mark
  stop : Mark
  deriving DecidableEq, Repr

/-- `lspobjects.DiagnosticSeverity` (only `Error` is used here). -/
inductive DiagnosticSeverity where
  | Error
  | Warning
  | Information
  | Hint
  deriving DecidableEq, Repr

/-- `lspobjects.Diagnostic`: range, message and severity (spec §3). -/
structure Diagnostic where
  range : Range
  message : String
  severity : DiagnosticSeverity
  deriving DecidableEq, Repr

/-- `CWLEnumType` (`enumtype.py:11-15`): a name and a symbol set (the set is
modelled as a list; only membership and its sorted, deduplicated rendering are
observed). -/
structure CWLEnumType where
  name : String
  symbols : List String
  deriving DecidableEq, Repr

/-- `isinstance(node, str)`. -/
def isStr : PyVal → Bool
  | .str _ => true
  | _ => false

/-- Python short-circuit `or`: the first operand when truthy, otherwise the
second operand. -/
def pyOrVal (a b : PyVal) : PyVal :=
  if a.pyTruthy then a else b

/-- The guard of `CWLEnumType.check` (`enumtype.py:19`):
`not (isinstance(node, str) or None)` — the operand of `not` is the Python
value `isinstance(node, str) or None`, and `not` negates its truthiness. -/
def checkCond (node : PyVal) : Bool :=
  !(pyOrVal (.bool (isStr node)) .pynone).pyTruthy

/-- The `Match` enum of `basetype.py` (not part of the given sources); only
`Yes`/`No` are observed here. -/
inductive Match where
  | Yes
  | No
  deriving DecidableEq, Repr

/-- Modelled from the spec: the `TypeCheck` result of a type check (spec
§4.2).  `basetype.py` is not part of the given sources; constructing
`TypeCheck` without an explicit `match` argument denotes a successful check,
and wrapping in `CWLDataType` is recorded as `isDataType`. -/
structure TypeCheck where
  cwl_type_name : String
  isDataType : Bool
  matchResult : Match
  deriving DecidableEq, Repr

/-- `CWLEnumType.check` (`enumtype.py:17-28`). -/
def CWLEnumType.check (t : CWLEnumType) (node : PyVal) : TypeCheck :=
  if checkCond node then ⟨t.name, false, .No⟩
  else if t.name = "PrimitiveType" ∨ t.name = "CWLType" then ⟨t.name, true, .Yes⟩
  else ⟨t.name, false, .Yes⟩

/-- Python `set(a).union(b)` modelled on lists: all members of both, first
occurrence kept (set iteration order is arbitrary in Python; only membership
and the sorted rendering are observed downstream). -/
def pySetUnion (a b : List String) : List String :=
  (a ++ b).dedup

/-- Membership of a node value in a list of strings, as Python `in` (an
equality test against each member; a non-string value equals no string). -/
def pyValInStrs (node : PyVal) (l : List String) : Bool :=
  match node with
  | .str s => l.contains s
  | _ => false

/-- Insert into a sorted list of strings (helper for `sorted`). -/
def insertSorted (s : String) : List String → List String
  | [] => [s]
  | t :: ts => if s ≤ t then s :: t :: ts else t :: insertSorted s ts

/-- Python `sorted` on strings (insertion sort). -/
def sortStrs : List String → List String
  | [] => []
  | s :: ts => insertSorted s (sortStrs ts)

/-- The single-quote character, used by Python `repr` of strings. -/
def sq : String := String.singleton (Char.ofNat 39)

/-- Python `repr` of a list of strings: quoted members, comma-separated,
bracketed. -/
def pyListRepr (l : List String) : String :=
  "[" ++ String.intercalate ", " (l.map (fun s => sq ++ s ++ sq)) ++ "]"

/-- Python `f"{sorted(symbol_set)}"`: deduplicate, sort, render. -/
def sortedSetRepr (l : List String) : String :=
  pyListRepr (sortStrs l.dedup)

/-- The diagnostics produced by `CWLEnumType.parse` (`enumtype.py:30-60`):
for the type-kind names the symbol set is augmented with the user-defined
type names (`typeDefs`) and each symbol is expanded with the suffixes
`""`, `"[]"`, `"?"`, `"[]?"`; a node not in the accepted set yields one
Error diagnostic at `value_range` with message
`"Expecting one of: " + sorted-symbol-set`. -/
def CWLEnumType.parseProblems (t : CWLEnumType) (typeDefs : List String)
    (node : PyVal) (value_range : Range) : List Diagnostic :=
  let symbols :=
    if t.name = "PrimitiveType" ∨ t.name = "CWLType" then
      pySetUnion typeDefs t.symbols
    else t.symbols
  let all_symbols :=
    if t.name = "PrimitiveType" ∨ t.name = "CWLType" then
      symbols.flatMap (fun sy => ["", "[]", "?", "[]?"].map (fun ext => sy ++ ext))
    else symbols
  if !(pyValInStrs node all_symbols) then
    [⟨value_range, "Expecting one of: " ++ sortedSetRepr symbols, .Error⟩]
  else []

/-- The keys of a keyed mapping, in iteration order. -/
def dkeys (m : List (PyVal × Elem)) : List PyVal :=
  m.map Prod.fst

/-- Spec-side characterization: the (key, element) pairs of the elements
whose key field is present and truthy, in original sequence order. -/
def goodPairs (kf : String) (value : List Elem) : List (PyVal × Elem) :=
  value.filterMap (fun v => (elemKeyVal kf v).map (fun k => (k, v)))

/-- Spec-side characterization: the truthy key-field values, in original
sequence order. -/
def truthyKeys (kf : String) (value : List Elem) : List PyVal :=
  value.filterMap (elemKeyVal kf)

/-- Concrete fixture for claim C2: a scalar spanning lines 1-3, starting at
column 5 of line 1. -/
def c2leaf : YNode := .yscalar (.str "v") "" ⟨1, 5⟩ ⟨3, 0⟩

/-- Concrete fixture for claim C2: a block sequence containing `c2leaf`. -/
def c2doc : YNode := .ylist false ⟨0, 0⟩ ⟨4, 0⟩ [c2leaf]

/-- Concrete fixture for claim C3: three elements that all contain the key
field `id`; the second has a falsy value and the third collides with the
first. -/
def c3elems : List Elem :=
  [[("id", .str "a")], [("id", .str "")], [("id", .str "a")]]

/-- Concrete fixture for claim C4: two elements with the same `id` but
different payloads. -/
def c4elems : List Elem :=
  [[("id", .str "a"), ("n", .int 1)], [("id", .str "a"), ("n", .int 2)]]

/-- Concrete fixture for claims C3/C10 witnesses: one keyed element and one
element without the key field. -/
def c3welems : List Elem :=
  [[("id", .str "a")], [("class", .str "x")]]

/-- Concrete fixture for claim C6: a parser that always fails with a
`DocumentError`. -/
def c6parser : String → Except DocumentError (Option YNode) :=
  fun _ => .error ⟨"mapping values are not allowed here", ⟨2, 4⟩⟩

/-- Concrete fixture for claim C6: a document whose text changed (tree
cleared) but whose last good tree survives from an earlier parse. -/
def c6doc : YamlDocS :=
  ⟨"a: b: c\n", none, some Ydict.empty, none⟩

/-- Concrete fixture for claim C7: the raw line of a document whose `steps`
section is a non-empty flow-style mapping. -/
def c7lines : List String := ["steps: all on one line\n"]

/-- Concrete fixture for claim C7: root tree with a non-empty flow-style
mapping under `steps`. -/
def c7doc : YNode :=
  .ydict false ⟨0, 0⟩ ⟨1, 0⟩
    [("steps", .ydict true ⟨0, 7⟩ ⟨0, 21⟩
      [("s1", .yscalar (.str "x") "" ⟨0, 12⟩ ⟨0, 13⟩)])]

/-- Concrete fixture for claim C7: the raw line of a document whose `steps`
section is an empty flow-style mapping. -/
def c7lines2 : List String := ["steps: eh\n"]

/-- Concrete fixture for claim C7: root tree with an empty flow-style
mapping under `steps`. -/
def c7doc2 : YNode :=
  .ydict false ⟨0, 0⟩ ⟨1, 0⟩ [("steps", .ydict true ⟨0, 7⟩ ⟨0, 9⟩ [])]

/-! ## Theorems -/

theorem rlDict_eq_find (line col : Nat) (es : List (String × YNode))
    (path : List PathKey) :
    rlDict line col es path =
      match (es.map (fun kv => (PathKey.str kv.1, kv.2))).find?
          (fun kv => containsPoint line col kv.2) with
      | none => none
      | some (k, v) =>
        if v.isComposite then reverse_lookup line col v (path ++ [k])
        else some (path ++ [k], v) := by
  induction es with
  | nil => simp [rlDict]
  | cons kv rest ih =>
    obtain ⟨k, v⟩ := kv
    by_cases h : containsPoint line col v
    · simp [rlDict, h]
    · simp [rlDict, h, ih]

theorem rlList_eq_find (line col : Nat) (es : List YNode) (i : Nat)
    (path : List PathKey) :
    rlList line col es i path =
      match ((es.enumFrom i).map (fun iv => (PathKey.idx iv.1, iv.2))).find?
          (fun kv => containsPoint line col kv.2) with
      | none => none
      | some (k, v) =>
        if v.isComposite then reverse_lookup line col v (path ++ [k])
        else some (path ++ [k], v) := by
  induction es generalizing i with
  | nil => simp [rlList]
  | cons v rest ih =>
    by_cases h : containsPoint line col v
    · simp [rlList, h]
    · simp [rlList, h, ih]

/-- Claim C2 (amended): `reverse_lookup` selects, at each level, the first
child in document order that contains the point under the source's
containment rule (`containsPoint`: line containment, with the column bounds
checked only for nodes lying entirely on a single line); it returns the
accumulated path and node when that child is a scalar, recurses into it when
it is composite, and returns nothing when no child contains the point — so
it can return nothing for points inside the document (e.g. on mapping keys),
and it can return a node whose first-line column bound excludes the point. -/
theorem reverse_lookup_first_containing_child (line col : Nat) (doc : YNode)
    (path : List PathKey) :
    reverse_lookup line col doc path =
      match doc.childrenKV.find? (fun kv => containsPoint line col kv.2) with
      | none => none
      | some (k, v) =>
        if v.isComposite then reverse_lookup line col v (path ++ [k])
        else some (path ++ [k], v) := by
  cases doc with
  | yscalar v s a b => simp [reverse_lookup, YNode.childrenKV]
  | ydict f a b es =>
    simpa [reverse_lookup, YNode.childrenKV] using rlDict_eq_find line col es path
  | ylist f a b es =>
    simpa [reverse_lookup, YNode.childrenKV, List.enum] using
      rlList_eq_find line col es 0 path

/-- Claim C2 counterexample: the point (1, 0) lies on the first line of
`c2leaf` (which spans lines 1-3 and starts at column 5), so under the claim's
containment rule — column bound checked on the node's first line — the leaf
does not contain the point; yet `reverse_lookup` returns that leaf, because
the source checks columns only for single-line nodes. -/
theorem reverse_lookup_containment_counterexample :
    reverse_lookup 1 0 c2doc [] = some ([PathKey.idx 0], c2leaf) ∧
    specClaimContains 1 0 c2leaf = false :=
  ⟨rfl, rfl⟩

/-- Claim C5: for the data-type descriptor named `CWLType` with symbol set
containing exactly `string` (and no user-defined types), validating
`string`, `string[]`, `string?` and `string[]?` produces no diagnostic,
while `strings` produces exactly one Error diagnostic at the node's range
whose message starts with "Expecting one of". -/
theorem enum_suffix_sugar (r : Range) :
    CWLEnumType.parseProblems ⟨"CWLType", ["string"]⟩ [] (.str "string") r = [] ∧
    CWLEnumType.parseProblems ⟨"CWLType", ["string"]⟩ [] (.str "string[]") r = [] ∧
    CWLEnumType.parseProblems ⟨"CWLType", ["string"]⟩ [] (.str "string?") r = [] ∧
    CWLEnumType.parseProblems ⟨"CWLType", ["string"]⟩ [] (.str "string[]?") r = [] ∧
    ∃ rest,
      CWLEnumType.parseProblems ⟨"CWLType", ["string"]⟩ [] (.str "strings") r =
        [⟨r, "Expecting one of" ++ rest, DiagnosticSeverity.Error⟩] :=
  ⟨rfl, rfl, rfl, rfl, ⟨": [" ++ sq ++ "string" ++ sq ++ "]", rfl⟩⟩

/-- Claim C6: when a reparse actually runs (the skip condition fails) and the
parser raises a `DocumentError`, `parse_yaml` sets `yaml_error` to that
error, leaves `last_good_yaml` (and `yaml`) unchanged, and reports
`ParseFail`. -/
theorem parse_fail_preserves_last_good
    (p : String → Except DocumentError (Option YNode)) (d : YamlDocS)
    (e : DocumentError)
    (hskip : (d.yaml.isSome && d.yaml_error.isNone) = false)
    (hp : p d.raw_text = .error e) :
    (parse_yaml p d).1.yaml_error = some e ∧
    (parse_yaml p d).1.last_good_yaml = d.last_good_yaml ∧
    (parse_yaml p d).1.yaml = d.yaml ∧
    (parse_yaml p d).2 = Contents.ParseFail := by
  simp [parse_yaml, hskip, hp]

/-- Witness for claim C6 at a concrete document and failing parser. -/
theorem parse_fail_preserves_last_good_witness :
    ((c6doc.yaml.isSome && c6doc.yaml_error.isNone) = false) ∧
    (c6parser c6doc.raw_text =
      .error ⟨"mapping values are not allowed here", ⟨2, 4⟩⟩) ∧
    ((parse_yaml c6parser c6doc).1.yaml_error =
        some ⟨"mapping values are not allowed here", ⟨2, 4⟩⟩ ∧
      (parse_yaml c6parser c6doc).1.last_good_yaml = c6doc.last_good_yaml ∧
      (parse_yaml c6parser c6doc).1.yaml = c6doc.yaml ∧
      (parse_yaml c6parser c6doc).2 = Contents.ParseFail) :=
  ⟨rfl, rfl, parse_fail_preserves_last_good c6parser c6doc _ rfl rfl⟩

/-- Claim C7: evaluating `get_raw_text_for_section` at a path addressing a
non-empty flow-style mapping produces a `NameError` for the undefined name
`UnableToCreateView` (the structured error the claim promises is neither
defined nor imported in `yamldoc.py`), while an empty flow-style mapping
yields the empty string; the function reads the document and never mutates
it. -/
theorem get_section_flow_style_behavior :
    get_raw_text_for_section c7lines c7doc ["steps"] =
      .error (.nameError "UnableToCreateView") ∧
    get_raw_text_for_section c7lines2 c7doc2 ["steps"] = .ok "" :=
  ⟨rfl, rfl⟩

/-- Claim C8 counterexample: for the non-string node `5` the guard of
`CWLEnumType.check` evaluates to true (because `False or None` is `None`,
which is falsy, so `not (...)` is `True`), and the check reports `Match.No`
— contradicting the claim that the condition is always true and every
non-string value is let through. -/
theorem check_nonstring_counterexample :
    checkCond (.int 5) = true ∧
    (CWLEnumType.check ⟨"CWLType", ["string"]⟩ (.int 5)).matchResult = Match.No :=
  ⟨rfl, rfl⟩

/-- Claim C8 (amended): the `or None` in
`not (isinstance(node, str) or None)` is a no-op — the guard is equivalent
to `not isinstance(node, str)` — so the check reports `Match.No` exactly for
non-string values and lets every string value through. -/
theorem check_condition_equiv (t : CWLEnumType) (node : PyVal) :
    checkCond node = !(isStr node) ∧
    ((CWLEnumType.check t node).matchResult = Match.No ↔ isStr node = false) := by
  have hc : checkCond node = !(isStr node) := by cases node <;> rfl
  refine ⟨hc, ?_⟩
  unfold CWLEnumType.check
  rw [hc]
  cases hs : isStr node
  · simp
  · simp only [Bool.not_true, Bool.false_eq_true, if_false]
    split <;> simp

theorem lam_fold_errors (kf : String) (value : List Elem) :
    ∀ (m : List (PyVal × Elem)) (e : List Elem),
      (value.foldl (lamStep kf) (m, e)).2 =
        e ++ value.filter (fun v => (elemKeyVal kf v).isNone) := by
  induction value with
  | nil => intro m e; simp
  | cons v rest ih =>
    intro m e
    cases hk : elemKeyVal kf v with
    | some k => simp [lamStep, hk, ih]
    | none => simp [lamStep, hk, ih]

theorem LAM_errors_eq (kf : String) (value : List Elem) :
    (LAM_build kf value).errors =
      value.filter (fun v => (elemKeyVal kf v).isNone) := by
  simp [LAM_build, lam_fold_errors]

theorem dkeys_map_keep {m : List (PyVal × Elem)} {k : PyVal} {v : Elem} :
    dkeys (m.map (fun p => if p.1 == k then (p.1, v) else p)) = dkeys m := by
  simp only [dkeys, List.map_map]
  congr 1
  funext p
  by_cases h : p.1 = k <;> simp [Function.comp, h]

theorem any_key_false_iff {m : List (PyVal × Elem)} {k : PyVal} :
    m.any (fun p => p.1 == k) = false ↔ k ∉ dkeys m := by
  rw [List.any_eq_false]
  constructor
  · intro h hk
    obtain ⟨p, hp, hpk⟩ := List.mem_map.mp hk
    exact (h p hp) (by simp [hpk])
  · intro h p hp hpk
    exact h (List.mem_map.mpr ⟨p, hp, by simpa using hpk⟩)

theorem dinsert_of_not_mem {m : List (PyVal × Elem)} {k : PyVal} {v : Elem}
    (h : k ∉ dkeys m) : dinsert m k v = m ++ [(k, v)] := by
  have hc : m.any (fun p => p.1 == k) = false := any_key_false_iff.mpr h
  simp only [dinsert, hc]
  simp

theorem dkeys_dinsert_mem {m : List (PyVal × Elem)} {k x : PyVal} {v : Elem}
    (h : x ∈ dkeys (dinsert m k v)) : x ∈ dkeys m ∨ x = k := by
  by_cases hc : m.any (fun p => p.1 == k)
  · rw [show dinsert m k v = m.map (fun p => if p.1 == k then (p.1, v) else p)
        from by simp only [dinsert, hc, if_true]] at h
    rw [dkeys_map_keep] at h
    exact .inl h
  · rw [show dinsert m k v = m ++ [(k, v)]
        from by simp only [dinsert, hc]; simp] at h
    simpa [dkeys] using h

theorem dkeys_dinsert_nodup {m : List (PyVal × Elem)} {k : PyVal} {v : Elem}
    (h : (dkeys m).Nodup) : (dkeys (dinsert m k v)).Nodup := by
  by_cases hc : m.any (fun p => p.1 == k)
  · rw [show dinsert m k v = m.map (fun p => if p.1 == k then (p.1, v) else p)
        from by simp only [dinsert, hc, if_true]]
    rwa [dkeys_map_keep]
  · rw [show dinsert m k v = m ++ [(k, v)]
        from by simp only [dinsert, hc]; simp]
    have hk : k ∉ dkeys m := any_key_false_iff.mp (Bool.eq_false_iff.mpr hc)
    have hdk : dkeys (m ++ [(k, v)]) = dkeys m ++ [k] := by simp [dkeys]
    rw [hdk]
    refine List.nodup_append.mpr ⟨h, List.nodup_singleton k, fun x hx1 hx2 => ?_⟩
    exact hk (by rwa [List.mem_singleton.mp hx2] at hx1)

theorem lam_fold_keys_nodup (kf : String) (value : List Elem) :
    ∀ m e, (dkeys m).Nodup →
      (dkeys (value.foldl (lamStep kf) (m, e)).1).Nodup := by
  induction value with
  | nil => intro m e h; simpa using h
  | cons v rest ih =>
    intro m e h
    cases hk : elemKeyVal kf v with
    | some k =>
      rw [List.foldl_cons,
        show lamStep kf (m, e) v = (dinsert m k v, e) from by simp [lamStep, hk]]
      exact ih _ _ (dkeys_dinsert_nodup h)
    | none =>
      rw [List.foldl_cons,
        show lamStep kf (m, e) v = (dinsert m secretKey v, e ++ [v]) from by
          simp [lamStep, hk]]
      exact ih _ _ (dkeys_dinsert_nodup h)

theorem LAM_keys_nodup (kf : String) (value : List Elem) :
    (dkeys (LAM_build kf value).entries).Nodup := by
  have h := lam_fold_keys_nodup kf value [] [] (by simp [dkeys])
  have hsub : (LAM_build kf value).entries.Sublist
      (value.foldl (lamStep kf) ([], [])).1 := by
    simp only [LAM_build]
    exact List.filter_sublist _
  exact List.Nodup.sublist (hsub.map Prod.fst) h

theorem dinsert_filter_ne_self {m : List (PyVal × Elem)} {k : PyVal} {v : Elem} :
    (dinsert m k v).filter (fun p => p.1 != k) = m.filter (fun p => p.1 != k) := by
  by_cases hc : m.any (fun p => p.1 == k)
  · rw [show dinsert m k v = m.map (fun p => if p.1 == k then (p.1, v) else p)
        from by simp only [dinsert, hc, if_true]]
    rw [List.filter_map]
    have hpf : ((fun p : PyVal × Elem => p.1 != k) ∘
        (fun p : PyVal × Elem => if p.1 == k then (p.1, v) else p)) =
        (fun p : PyVal × Elem => p.1 != k) := by
      funext p
      by_cases h : p.1 = k <;> simp [Function.comp, h]
    rw [hpf]
    refine (List.map_congr_left fun p hp => ?_).trans (List.map_id _)
    have : (p.1 != k) = true := (List.mem_filter.mp hp).2
    have h1 : ¬(p.1 == k) = true := by simpa using this
    simp [h1]
  · rw [show dinsert m k v = m ++ [(k, v)]
        from by simp only [dinsert, hc]; simp]
    simp [List.filter_append]

theorem lam_fold_entries (kf : String) (value : List Elem) :
    ∀ (m : List (PyVal × Elem)) (e : List Elem),
      (truthyKeys kf value).Nodup →
      secretKey ∉ truthyKeys kf value →
      (∀ k ∈ truthyKeys kf value, k ∉ dkeys m) →
      ((value.foldl (lamStep kf) (m, e)).1).filter (fun p => p.1 != secretKey) =
        m.filter (fun p => p.1 != secretKey) ++ goodPairs kf value := by
  induction value with
  | nil => intro m e _ _ _; simp [goodPairs]
  | cons v rest ih =>
    intro m e hnd hs hdisj
    cases hk : elemKeyVal kf v with
    | some k =>
      have hkeys : truthyKeys kf (v :: rest) = k :: truthyKeys kf rest := by
        simp [truthyKeys, hk]
      rw [hkeys] at hnd hs hdisj
      have hkm : k ∉ dkeys m := hdisj k (by simp)
      have hins : dinsert m k v = m ++ [(k, v)] := dinsert_of_not_mem hkm
      rw [List.foldl_cons,
        show lamStep kf (m, e) v = (m ++ [(k, v)], e) from by
          simp [lamStep, hk, hins]]
      rw [ih (m ++ [(k, v)]) e hnd.of_cons
        (fun hmem => hs (List.mem_cons_of_mem _ hmem))
        (fun k' hk' => by
          have h1 : k' ∉ dkeys m := hdisj k' (List.mem_cons_of_mem _ hk')
          have h2 : k' ≠ k := fun hE => (List.nodup_cons.mp hnd).1 (hE ▸ hk')
          intro hmem
          have hdk : dkeys (m ++ [(k, v)]) = dkeys m ++ [k] := by simp [dkeys]
          rw [hdk] at hmem
          rcases List.mem_append.mp hmem with h | h
          · exact h1 h
          · exact h2 (List.mem_singleton.mp h))]
      have hkne : (k != secretKey) = true := by
        have : k ≠ secretKey := fun hE => hs (by simp [hE])
        simpa using this
      have hgp : goodPairs kf (v :: rest) = (k, v) :: goodPairs kf rest := by
        simp [goodPairs, hk]
      rw [hgp, List.filter_append]
      have hone : List.filter (fun p : PyVal × Elem => p.1 != secretKey) [(k, v)] =
          [(k, v)] := by simp [hkne]
      rw [hone, List.append_assoc]
      rfl
    | none =>
      have hkeys : truthyKeys kf (v :: rest) = truthyKeys kf rest := by
        simp [truthyKeys, hk]
      rw [hkeys] at hnd hs hdisj
      rw [List.foldl_cons,
        show lamStep kf (m, e) v = (dinsert m secretKey v, e ++ [v]) from by
          simp [lamStep, hk]]
      rw [ih (dinsert m secretKey v) (e ++ [v]) hnd hs
        (fun k' hk' => fun hmem => by
          rcases dkeys_dinsert_mem hmem with h | h
          · exact hdisj k' hk' h
          · exact hs (h ▸ hk'))]
      rw [dinsert_filter_ne_self]
      simp [goodPairs, hk]

theorem LAM_entries_eq (kf : String) (value : List Elem)
    (hnd : (truthyKeys kf value).Nodup)
    (hs : secretKey ∉ truthyKeys kf value) :
    (LAM_build kf value).entries = goodPairs kf value := by
  have h := lam_fold_entries kf value [] [] hnd hs (by intro k _; simp [dkeys])
  simpa [LAM_build] using h

theorem goodPairs_map_snd (kf : String) (value : List Elem) :
    (goodPairs kf value).map Prod.snd =
      value.filter (fun v => (elemKeyVal kf v).isSome) := by
  induction value with
  | nil => simp [goodPairs]
  | cons v rest ih =>
    cases hk : elemKeyVal kf v <;> simp [goodPairs, hk] <;>
      simpa [goodPairs] using ih

/-- Claim C3 counterexample: all three elements of `c3elems` contain the key
field `id` (the claim's M is 3, predicting 3 entries and 0 errors), but
promotion yields 1 entry — the falsy `id` value is diverted to `errors` and
the element whose key collides with the first silently replaces it — and 1
error. -/
theorem lam_promotion_counterexample :
    c3elems.countP (fun v => (pyDictGet v "id").isSome) = 3 ∧
    (LAM_build "id" c3elems).entries.length = 1 ∧
    (LAM_build "id" c3elems).errors.length = 1 :=
  ⟨rfl, rfl, rfl⟩

/-- Claim C3 (amended): for a sequence of N mapping elements of which M
contain the key field with a truthy value, provided those M key values are
pairwise distinct and none equals the internal sentinel string, promotion
yields exactly those M elements as entries keyed by their key values in
original sequence order, and appends the other N−M elements, in order, to
`errors`; conversion is a total function and never aborts. -/
theorem lam_promotion_characterization (kf : String) (value : List Elem)
    (hnd : (truthyKeys kf value).Nodup)
    (hs : secretKey ∉ truthyKeys kf value) :
    (LAM_build kf value).entries = goodPairs kf value ∧
    (LAM_build kf value).entries.map Prod.snd =
      value.filter (fun v => (elemKeyVal kf v).isSome) ∧
    (LAM_build kf value).errors =
      value.filter (fun v => (elemKeyVal kf v).isNone) :=
  ⟨LAM_entries_eq kf value hnd hs,
   by rw [LAM_entries_eq kf value hnd hs, goodPairs_map_snd],
   LAM_errors_eq kf value⟩

/-- Witness for claim C3 at a concrete two-element sequence. -/
theorem lam_promotion_characterization_witness :
    (truthyKeys "id" c3welems).Nodup ∧
    secretKey ∉ truthyKeys "id" c3welems ∧
    ((LAM_build "id" c3welems).entries = goodPairs "id" c3welems ∧
      (LAM_build "id" c3welems).entries.map Prod.snd =
        c3welems.filter (fun v => (elemKeyVal "id" v).isSome) ∧
      (LAM_build "id" c3welems).errors =
        c3welems.filter (fun v => (elemKeyVal "id" v).isNone)) :=
  ⟨by decide, by decide,
   lam_promotion_characterization "id" c3welems (by decide) (by decide)⟩

/-- Claim C4 counterexample: both elements of `c4elems` carry the key `a`;
the claim predicts the collision is diverted to `errors`, but the second
element silently replaces the first in the mapping and `errors` stays
empty. -/
theorem lam_overwrite_counterexample :
    LAM_build "id" c4elems =
      ⟨[(.str "a", [("id", .str "a"), ("n", .int 2)])], []⟩ :=
  rfl

/-- Claim C4 (amended): the keys of the produced mapping are unique by
construction, and the `errors` list consists of exactly the elements whose
key field is missing or falsy — an element whose key collides with an
earlier element's key is NOT diverted to `errors`; it silently replaces the
earlier entry. -/
theorem lam_keys_unique_errors_exact (kf : String) (value : List Elem) :
    (dkeys (LAM_build kf value).entries).Nodup ∧
    (LAM_build kf value).errors =
      value.filter (fun v => (elemKeyVal kf v).isNone) :=
  ⟨LAM_keys_nodup kf value, LAM_errors_eq kf value⟩

theorem dinsert_forall {P : PyVal × Elem → Prop} {m : List (PyVal × Elem)}
    {k : PyVal} {v : Elem} (hm : ∀ p ∈ m, P p) (hkv : P (k, v)) :
    ∀ p ∈ dinsert m k v, P p := by
  intro p hp
  by_cases hc : m.any (fun q => q.1 == k)
  · rw [show dinsert m k v = m.map (fun q => if q.1 == k then (q.1, v) else q)
        from by simp only [dinsert, hc, if_true]] at hp
    obtain ⟨q, hq, rfl⟩ := List.mem_map.mp hp
    by_cases hqk : (q.1 == k) = true
    · have : q.1 = k := by simpa using hqk
      simp only [hqk, if_true]
      rw [this]
      exact hkv
    · simp only [hqk, if_false]
      exact hm q hq
  · rw [show dinsert m k v = m ++ [(k, v)]
        from by simp only [dinsert, hc]; simp] at hp
    rcases List.mem_append.mp hp with h | h
    · exact hm p h
    · rw [List.mem_singleton.mp h]
      exact hkv

theorem lam_fold_inv (kf : String) (value : List Elem) :
    ∀ m e, (∀ p ∈ m, p.1 = secretKey ∨ elemKeyVal kf p.2 = some p.1) →
      ∀ p ∈ (value.foldl (lamStep kf) (m, e)).1,
        p.1 = secretKey ∨ elemKeyVal kf p.2 = some p.1 := by
  induction value with
  | nil => intro m e hm; simpa using hm
  | cons v rest ih =>
    intro m e hm
    cases hk : elemKeyVal kf v with
    | some k =>
      rw [List.foldl_cons,
        show lamStep kf (m, e) v = (dinsert m k v, e) from by simp [lamStep, hk]]
      exact ih _ _ (dinsert_forall hm (.inr (by simpa using hk)))
    | none =>
      rw [List.foldl_cons,
        show lamStep kf (m, e) v = (dinsert m secretKey v, e ++ [v]) from by
          simp [lamStep, hk]]
      exact ih _ _ (dinsert_forall hm (.inl rfl))

theorem LAM_entries_keyed (kf : String) (value : List Elem) :
    ∀ p ∈ (LAM_build kf value).entries, elemKeyVal kf p.2 = some p.1 := by
  intro p hp
  have hrepr : (LAM_build kf value).entries =
      ((value.foldl (lamStep kf) ([], [])).1).filter
        (fun p => p.1 != secretKey) := rfl
  rw [hrepr] at hp
  have hp0 : p ∈ (value.foldl (lamStep kf) ([], [])).1 :=
    List.mem_of_mem_filter hp
  have hne : p.1 ≠ secretKey := by simpa using (List.mem_filter.mp hp).2
  rcases lam_fold_inv kf value [] [] (by simp) p hp0 with h | h
  · exact absurd h hne
  · exact h

/-- Claim C10: an element that contains the key field with a falsy value
(empty string, 0, False or None) is treated as if the field were missing —
appended to `errors` and excluded from the mapping's values. -/
theorem lam_falsy_key_diverted (kf : String) (value : List Elem) (v : Elem)
    (x : PyVal) (hv : v ∈ value) (hk : pyDictGet v kf = some x)
    (hx : x.pyTruthy = false) :
    v ∈ (LAM_build kf value).errors ∧
    v ∉ (LAM_build kf value).entries.map Prod.snd := by
  have hkey : elemKeyVal kf v = none := by simp [elemKeyVal, hk, hx]
  refine ⟨?_, ?_⟩
  · rw [LAM_errors_eq]
    exact List.mem_filter.mpr ⟨hv, by simp [hkey]⟩
  · intro hmem
    obtain ⟨p, hp, hps⟩ := List.mem_map.mp hmem
    have h := LAM_entries_keyed kf value p hp
    rw [hps, hkey] at h
    exact Option.noConfusion h

/-- Witness for claim C10 at a concrete element with falsy key. -/
theorem lam_falsy_key_diverted_witness :
    ([("id", PyVal.str "")] ∈ c3elems) ∧
    (pyDictGet [("id", PyVal.str "")] "id" = some (PyVal.str "")) ∧
    ((PyVal.str "").pyTruthy = false) ∧
    ([("id", PyVal.str "")] ∈ (LAM_build "id" c3elems).errors ∧
      [("id", PyVal.str "")] ∉ (LAM_build "id" c3elems).entries.map Prod.snd) :=
  ⟨by decide, by decide, by decide,
   lam_falsy_key_diverted "id" c3elems [("id", PyVal.str "")] (PyVal.str "")
     (by decide) (by decide) (by decide)⟩

theorem pyIdx_of_get? {l : List String} {n : Nat} {s : String}
    (h : l.get? n = some s) : pyIdx l (n : Int) = .ok s := by
  have hn : n < l.length := by
    by_contra hc
    rw [List.get?_eq_none.mpr (Nat.le_of_not_lt hc)] at h
    exact Option.noConfusion h
  unfold pyIdx
  have h0 : ¬((n : Int) < 0) := by omega
  rw [if_neg h0, if_pos (show (0 : Int) ≤ (n : Int) by omega)]
  rw [show ((n : Int)).toNat = n from by simp]
  rw [h]

theorem pyIdx_from_end {new : List String} {n : Nat} {s : String}
    (h : new.reverse.get? n = some s) :
    pyIdx new ((new.length : Int) - 1 - n) = .ok s := by
  have hn : n < new.length := by
    by_contra hc
    rw [List.get?_eq_none.mpr (by simpa using Nat.le_of_not_lt hc)] at h
    exact Option.noConfusion h
  have hrev : new.get? (new.length - 1 - n) = some s := by
    rw [List.get?_eq_getElem?, ← List.getElem?_reverse hn, ← List.get?_eq_getElem?]
    exact h
  have harg : (new.length : Int) - 1 - n = ((new.length - 1 - n : Nat) : Int) := by
    omega
  rw [harg]
  exact pyIdx_of_get? hrev

theorem upperLoopGo_spec (new : List String) :
    ∀ (rem newRem : List String) (n : Nat),
      (∀ j, new.get? (n + j) = newRem.get? j) →
      rem.length = newRem.length →
      upperLoopGo rem new n =
        .ok (if rem = newRem then none else some (n + lcpLen rem newRem)) := by
  intro rem
  induction rem with
  | nil =>
    intro newRem n hj hlen
    have : newRem = [] := List.length_eq_zero.mp hlen.symm
    subst this
    simp [upperLoopGo]
  | cons o rest ih =>
    intro newRem n hj hlen
    cases newRem with
    | nil => simp at hlen
    | cons s nrest =>
      have hs0 : new.get? n = some s := by simpa using hj 0
      have hpy : pyIdx new (n : Int) = .ok s := pyIdx_of_get? hs0
      simp only [upperLoopGo, hpy]
      by_cases ho : o = s
      · subst ho
        simp only [bne_self_eq_false, Bool.false_eq_true, if_false]
        rw [ih nrest (n + 1)
          (fun j => by
            have := hj (j + 1)
            simpa [show n + 1 + j = n + (j + 1) from by omega] using this)
          (by simpa using hlen)]
        by_cases hr : rest = nrest
        · simp [hr]
        · have harith : n + 1 + lcpLen rest nrest = n + (lcpLen rest nrest + 1) := by
            omega
          simp [hr, lcpLen, harith]
      · have hbne : (o != s) = true := by simpa using ho
        simp only [hbne, if_true]
        have hne : (o :: rest) ≠ (s :: nrest) := by simp [ho]
        have hlcp : lcpLen (o :: rest) (s :: nrest) = 0 := by simp [lcpLen, ho]
        simp [hne, hlcp]

theorem lowerLoopGo_spec (new : List String) :
    ∀ (remRev nremRev : List String) (n : Nat),
      (∀ j, new.reverse.get? (n + j) = nremRev.get? j) →
      remRev.length = nremRev.length →
      lowerLoopGo remRev new n =
        .ok (if remRev = nremRev then none else some (n + lcpLen remRev nremRev)) := by
  intro remRev
  induction remRev with
  | nil =>
    intro nremRev n hj hlen
    have : nremRev = [] := List.length_eq_zero.mp hlen.symm
    subst this
    simp [lowerLoopGo]
  | cons o rest ih =>
    intro nremRev n hj hlen
    cases nremRev with
    | nil => simp at hlen
    | cons s nrest =>
      have hs0 : new.reverse.get? n = some s := by simpa using hj 0
      have hpy : pyIdx new ((new.length : Int) - 1 - n) = .ok s := pyIdx_from_end hs0
      simp only [lowerLoopGo, hpy]
      by_cases ho : o = s
      · subst ho
        simp only [bne_self_eq_false, Bool.false_eq_true, if_false]
        rw [ih nrest (n + 1)
          (fun j => by
            have := hj (j + 1)
            simpa [show n + 1 + j = n + (j + 1) from by omega] using this)
          (by simpa using hlen)]
        by_cases hr : rest = nrest
        · simp [hr]
        · have harith : n + 1 + lcpLen rest nrest = n + (lcpLen rest nrest + 1) := by
            omega
          simp [hr, lcpLen, harith]
      · have hbne : (o != s) = true := by simpa using ho
        simp only [hbne, if_true]
        have hne : (o :: rest) ≠ (s :: nrest) := by simp [ho]
        have hlcp : lcpLen (o :: rest) (s :: nrest) = 0 := by simp [lcpLen, ho]
        simp [hne, hlcp]

theorem upperLoop_eq_of_len {orig new : List String}
    (h : orig.length = new.length) :
    upperLoop orig new =
      .ok (if orig = new then none else some (lcpLen orig new)) := by
  have hspec := upperLoopGo_spec new orig new 0 (fun j => by simp) h
  simpa [upperLoop] using hspec

theorem lowerLoop_eq_of_len {orig new : List String}
    (h : orig.length = new.length) :
    lowerLoop orig new =
      .ok (if orig = new then none else some (lcsLen orig new)) := by
  have hspec := lowerLoopGo_spec new orig.reverse new.reverse 0
    (fun j => by simp) (by simp [h])
  simpa [lowerLoop, lcsLen, List.reverse_inj] using hspec

theorem lcpLen_le_right : ∀ (xs ys : List String), lcpLen xs ys ≤ ys.length
  | [], _ => by simp [lcpLen]
  | _ :: _, [] => by simp [lcpLen]
  | x :: xs, y :: ys => by
    by_cases h : x = y
    · simpa [lcpLen, h] using lcpLen_le_right xs ys
    · simp [lcpLen, h]

theorem pySlice_of_bounds {l : List String} {a b : Nat}
    (ha : a ≤ l.length) (hb : b ≤ l.length) :
    pySlice l (a : Int) (b : Int) = (l.drop a).take (b - a) := by
  unfold pySlice
  have h1 : ¬((a : Int) < 0) := by omega
  have h2 : ¬((b : Int) < 0) := by omega
  simp only [if_neg h1, if_neg h2]
  rw [min_eq_left (show (b : Int) ≤ (l.length : Int) by exact_mod_cast hb),
    min_eq_left (show (a : Int) ≤ (l.length : Int) by exact_mod_cast ha)]
  simp

/-- Claim C9 (amended): for line buffers of equal length that differ
somewhere, the computed change record trims exactly the longest common
prefix and the longest common suffix: it covers from the first to the last
mismatching line, with the corresponding slice of the new buffer as
replacement text (so the concrete example of the claim holds as stated; for
identical buffers, however, the record still covers the buffer's final line
instead of being empty — see the counterexample). -/
theorem quick_diff_trims_common_affixes (orig new : List String)
    (hlen : orig.length = new.length) (hne : orig ≠ new) :
    edit_from_quick_diff orig new =
      .ok ⟨⟨(lcpLen orig new : Int), 0⟩,
           ⟨(orig.length : Int) - (lcsLen orig new : Int), 0⟩,
           String.join ((new.drop (lcpLen orig new)).take
             (new.length - lcsLen orig new - lcpLen orig new))⟩ := by
  have hp : lcpLen orig new ≤ new.length := lcpLen_le_right orig new
  have hs : lcsLen orig new ≤ new.length := by
    have := lcpLen_le_right orig.reverse new.reverse
    simpa [lcsLen] using this
  have hslice : pySlice new ((lcpLen orig new : Nat) : Int)
      (((new.length : Int) - 1) - (lcsLen orig new : Int) + 1) =
      (new.drop (lcpLen orig new)).take
        (new.length - lcsLen orig new - lcpLen orig new) := by
    have harg : ((new.length : Int) - 1) - (lcsLen orig new : Int) + 1 =
        ((new.length - lcsLen orig new : Nat) : Int) := by omega
    rw [harg, pySlice_of_bounds hp (by omega)]
  simp only [edit_from_quick_diff, upperLoop_eq_of_len hlen,
    lowerLoop_eq_of_len hlen, if_neg hne]
  rw [hslice]
  have hend : ((orig.length : Int) - 1) - (lcsLen orig new : Int) + 1 =
      (orig.length : Int) - (lcsLen orig new : Int) := by ring
  rw [hend]

/-- Witness for claim C9, at the spec's own concrete example: buffers
`a b c` and `a x c` give the record covering line 1 only, with replacement
`x`. -/
theorem quick_diff_trims_common_affixes_witness :
    ((["a\n", "b\n", "c\n"] : List String).length =
      (["a\n", "x\n", "c\n"] : List String).length) ∧
    ((["a\n", "b\n", "c\n"] : List String) ≠ ["a\n", "x\n", "c\n"]) ∧
    edit_from_quick_diff ["a\n", "b\n", "c\n"] ["a\n", "x\n", "c\n"] =
      .ok ⟨⟨1, 0⟩, ⟨2, 0⟩, "x\n"⟩ :=
  ⟨rfl, by decide,
   (quick_diff_trims_common_affixes ["a\n", "b\n", "c\n"] ["a\n", "x\n", "c\n"]
     rfl (by decide)).trans (by rfl)⟩

/-- Claim C9 counterexample: for `orig = [a, b]` and `new = [a, b, c]` the
longest common prefix has length 2 (all of `orig`), yet the computed record
starts at line 1 and replaces line `b` with `b c` — the record does not trim
the longest common prefix, contradicting the claim's general sentence. -/
theorem quick_diff_counterexample :
    lcpLen ["a\n", "b\n"] ["a\n", "b\n", "c\n"] = 2 ∧
    edit_from_quick_diff ["a\n", "b\n"] ["a\n", "b\n", "c\n"] =
      .ok ⟨⟨1, 0⟩, ⟨2, 0⟩, "b\nc\n"⟩ :=
  ⟨rfl, rfl⟩

end Benten
